import Mathlib

/-!
Verification of the natural-language specification of the
`libsignal-client` bridge/crypto sources against a shallow embedding of
the code.

Part 1 models `src/rust/protocol/src/crypto.rs`: the AES-256-CBC
wrapper functions.  The AES-256 block permutation itself lives in the
external `aes` crate (the spec declares the cryptographic primitives an
external collaborator), so the wrappers are embedded generically over a
block-cipher function `Bytes → Bytes → Bytes` (key, 16-byte block ↦
16-byte block); CBC chaining and PKCS7 padding follow the semantics of
the external `block_modes` crate which the wrappers instantiate.
-/

/-- Byte strings are lists of naturals (each byte a value mod 256;
byte-ness is irrelevant to the claims proved here). -/
abbrev Bytes := List Nat

/-- Error cases of `SignalProtocolError` reachable from crypto.rs. -/
inductive SignalProtocolError where
  | InvalidCiphertext : SignalProtocolError
  | InvalidCipherCryptographicParameters : Nat → Nat → SignalProtocolError
deriving DecidableEq

/-- PKCS7 padding at block size 16, as applied by
`Cbc::<Aes256, Pkcs7>::encrypt_vec` in the `block_modes` crate. -/
def pkcs7Pad (msg : Bytes) : Bytes :=
  let n := 16 - msg.length % 16
  msg ++ List.replicate n n

/-- PKCS7 unpadding at block size 16, as applied by
`Cbc::<Aes256, Pkcs7>::decrypt_vec`; `none` is the crate's unpad error. -/
def pkcs7Unpad (data : Bytes) : Option Bytes :=
  match data.getLast? with
  | none => none
  | some n =>
    if n = 0 ∨ data.length < n then none
    else if data.drop (data.length - n) = List.replicate n n then
      some (data.take (data.length - n))
    else none

/-- Split a byte string into consecutive 16-byte blocks. -/
def toBlocks (l : Bytes) : List Bytes :=
  if h : l = [] then []
  else l.take 16 :: toBlocks (l.drop 16)
termination_by l.length
decreasing_by
  simp only [List.length_drop]
  have : 0 < l.length := List.length_pos.mpr h
  omega

/-- Bytewise xor of two equal-length byte strings. -/
def zipXor (a b : Bytes) : Bytes := List.zipWith (fun x y => x ^^^ y) a b

/-- CBC-mode encryption over a block list, chaining from `prev`
(initially the IV), as in the `block_modes` crate. -/
def cbcEncBlocks (encB : Bytes → Bytes) : Bytes → List Bytes → List Bytes
  | _, [] => []
  | prev, b :: bs =>
    let c := encB (zipXor b prev)
    c :: cbcEncBlocks encB c bs

/-- CBC-mode decryption over a block list, chaining from `prev`. -/
def cbcDecBlocks (decB : Bytes → Bytes) : Bytes → List Bytes → List Bytes
  | _, [] => []
  | prev, c :: cs => zipXor (decB c) prev :: cbcDecBlocks decB c cs

/-- Model of `aes_256_cbc_encrypt` (crypto.rs lines 13-20), generic over
the AES-256 block permutation `encB`.  `Cbc::new_var` succeeds exactly
when the key is 32 bytes and the IV is 16 bytes; otherwise the wrapper
returns `InvalidCipherCryptographicParameters(key.len(), iv.len())`. -/
def aes_256_cbc_encrypt (encB : Bytes → Bytes → Bytes) (ptext key iv : Bytes) :
    Except SignalProtocolError Bytes :=
  if key.length = 32 ∧ iv.length = 16 then
    .ok (List.flatten (cbcEncBlocks (encB key) iv (toBlocks (pkcs7Pad ptext))))
  else
    .error (.InvalidCipherCryptographicParameters key.length iv.length)

/-- Model of `aes_256_cbc_decrypt` (crypto.rs lines 22-40), generic over
the AES-256 inverse block permutation `decB`.  The empty / non-multiple
-of-16 ciphertext check comes first, exactly as in the source; an unpad
failure is mapped to `InvalidCiphertext`. -/
def aes_256_cbc_decrypt (decB : Bytes → Bytes → Bytes) (ctext key iv : Bytes) :
    Except SignalProtocolError Bytes :=
  if ctext = [] ∨ ctext.length % 16 ≠ 0 then
    .error .InvalidCiphertext
  else if key.length = 32 ∧ iv.length = 16 then
    match pkcs7Unpad (List.flatten (cbcDecBlocks (decB key) iv (toBlocks ctext))) with
    | some ptext => .ok ptext
    | none => .error .InvalidCiphertext
  else
    .error (.InvalidCipherCryptographicParameters key.length iv.length)

theorem pkcs7Pad_length (m : Bytes) :
    (pkcs7Pad m).length = m.length + (16 - m.length % 16) := by
  simp [pkcs7Pad]

theorem pkcs7Pad_mod (m : Bytes) : (pkcs7Pad m).length % 16 = 0 := by
  rw [pkcs7Pad_length]; omega

theorem pkcs7Pad_ne_nil (m : Bytes) : pkcs7Pad m ≠ [] := by
  intro h
  have hl := congrArg List.length h
  rw [pkcs7Pad_length] at hl
  simp only [List.length_nil] at hl
  omega

theorem pkcs7Unpad_pkcs7Pad (m : Bytes) : pkcs7Unpad (pkcs7Pad m) = some m := by
  have hlt : m.length % 16 < 16 := Nat.mod_lt _ (by omega)
  have hpad : pkcs7Pad m = m ++ List.replicate (16 - m.length % 16) (16 - m.length % 16) :=
    rfl
  set n := 16 - m.length % 16 with hn
  have hn1 : 1 ≤ n := by omega
  have hlen : (pkcs7Pad m).length = m.length + n := by rw [pkcs7Pad_length]
  rw [pkcs7Unpad, hpad, List.getLast?_append, List.getLast?_replicate,
    if_neg (by omega : ¬ n = 0)]
  simp only [Option.or_some]
  rw [if_neg (by rw [← hpad, hlen]; omega)]
  have hsub : (m ++ List.replicate n n).length - n = m.length := by
    rw [← hpad, hlen]; omega
  rw [hsub, List.drop_left' rfl, if_pos rfl, List.take_left' rfl]

theorem toBlocks_flatten (l : Bytes) : (toBlocks l).flatten = l := by
  induction l using toBlocks.induct with
  | case1 => rw [toBlocks, dif_pos rfl]; rfl
  | case2 l h ih =>
    rw [toBlocks, dif_neg h]
    simp only [List.flatten_cons, ih, List.take_append_drop]

theorem toBlocks_blocks_length :
    ∀ ⦃l : Bytes⦄, l.length % 16 = 0 → ∀ b ∈ toBlocks l, b.length = 16 := by
  intro l
  induction l using toBlocks.induct with
  | case1 =>
    intro _ b hb
    rw [toBlocks, dif_pos rfl] at hb
    cases hb
  | case2 l h ih =>
    intro hmod b hb
    have hpos : 0 < l.length := List.length_pos.mpr h
    have h16 : 16 ≤ l.length := by omega
    rw [toBlocks, dif_neg h] at hb
    rcases List.mem_cons.mp hb with rfl | hb
    · rw [List.length_take]; omega
    · exact ih (by rw [List.length_drop]; omega) b hb

theorem toBlocks_flatten_inv (bs : List Bytes) (h : ∀ b ∈ bs, b.length = 16) :
    toBlocks bs.flatten = bs := by
  induction bs with
  | nil => rw [List.flatten_nil, toBlocks, dif_pos rfl]
  | cons b bs ih =>
    have hb : b.length = 16 := h b (List.mem_cons_self b bs)
    rw [List.flatten_cons, toBlocks]
    have hne : b ++ bs.flatten ≠ [] := by
      intro hc
      have := congrArg List.length hc
      simp only [List.length_append, hb, List.length_nil] at this
      omega
    rw [dif_neg hne, List.take_left' hb, List.drop_left' hb,
      ih (fun x hx => h x (List.mem_cons_of_mem b hx))]

theorem zipXor_length (a b : Bytes) : (zipXor a b).length = min a.length b.length := by
  simp [zipXor]

theorem zipXor_cancel : ∀ (a b : Bytes), a.length = b.length → zipXor (zipXor a b) b = a
  | [], [], _ => rfl
  | [], _ :: _, h => by simp at h
  | _ :: _, [], h => by simp at h
  | x :: a, y :: b, h => by
    simp only [zipXor, List.zipWith_cons_cons] at *
    rw [Nat.xor_cancel_right]
    have := zipXor_cancel a b (by simpa using h)
    simp only [zipXor] at this
    rw [this]

theorem cbcEncBlocks_length (encB : Bytes → Bytes) :
    ∀ (bs : List Bytes) (prev : Bytes), (cbcEncBlocks encB prev bs).length = bs.length
  | [], _ => rfl
  | _ :: bs, prev => by
    simp only [cbcEncBlocks, List.length_cons]
    rw [cbcEncBlocks_length encB bs]

theorem cbcEncBlocks_blocks_length (encB : Bytes → Bytes)
    (hlen : ∀ b, b.length = 16 → (encB b).length = 16) :
    ∀ (bs : List Bytes) (prev : Bytes), prev.length = 16 → (∀ b ∈ bs, b.length = 16) →
      ∀ c ∈ cbcEncBlocks encB prev bs, c.length = 16
  | [], _, _, _ => by intro c hc; cases hc
  | b :: bs, prev, hp, hbs => by
    intro c hc
    have hb : b.length = 16 := hbs b (List.mem_cons_self b bs)
    have hcl : (encB (zipXor b prev)).length = 16 := by
      apply hlen
      rw [zipXor_length, hb, hp]
      exact min_self 16
    simp only [cbcEncBlocks] at hc
    rcases List.mem_cons.mp hc with rfl | hc
    · exact hcl
    · exact cbcEncBlocks_blocks_length encB hlen bs _ hcl
        (fun x hx => hbs x (List.mem_cons_of_mem b hx)) c hc

theorem cbcDec_cbcEnc (encB decB : Bytes → Bytes)
    (hinv : ∀ b, b.length = 16 → decB (encB b) = b)
    (hlen : ∀ b, b.length = 16 → (encB b).length = 16) :
    ∀ (bs : List Bytes) (prev : Bytes), prev.length = 16 → (∀ b ∈ bs, b.length = 16) →
      cbcDecBlocks decB prev (cbcEncBlocks encB prev bs) = bs
  | [], _, _, _ => rfl
  | b :: bs, prev, hp, hbs => by
    have hb : b.length = 16 := hbs b (List.mem_cons_self b bs)
    have hxlen : (zipXor b prev).length = 16 := by
      rw [zipXor_length, hb, hp]
      exact min_self 16
    simp only [cbcEncBlocks, cbcDecBlocks]
    rw [hinv _ hxlen, zipXor_cancel b prev (by rw [hb, hp])]
    rw [cbcDec_cbcEnc encB decB hinv hlen bs _ (hlen _ hxlen)
      (fun x hx => hbs x (List.mem_cons_of_mem b hx))]

theorem flatten_length_of_blocks (cs : List Bytes) (h : ∀ c ∈ cs, c.length = 16) :
    cs.flatten.length = 16 * cs.length := by
  induction cs with
  | nil => rfl
  | cons c cs ih =>
    rw [List.flatten_cons, List.length_append, h c (List.mem_cons_self c cs),
      ih (fun x hx => h x (List.mem_cons_of_mem c hx)), List.length_cons]
    omega

/-- C8: for every plaintext, every 32-byte key, and every 16-byte IV,
aes_256_cbc_encrypt succeeds, and aes_256_cbc_decrypt applied to its
output with the same key and IV returns Ok of the original plaintext.
The AES-256 block permutation (external aes crate) is abstracted as any
pair of mutually inverse, length-preserving 16-byte block maps. -/
theorem c8_aes_256_cbc_roundtrip (encB decB : Bytes → Bytes → Bytes)
    (ptext key iv : Bytes)
    (hkey : key.length = 32) (hiv : iv.length = 16)
    (hinv : ∀ b : Bytes, b.length = 16 → decB key (encB key b) = b)
    (hlen : ∀ b : Bytes, b.length = 16 → (encB key b).length = 16) :
    ∃ ctext, aes_256_cbc_encrypt encB ptext key iv = .ok ctext ∧
      aes_256_cbc_decrypt decB ctext key iv = .ok ptext := by
  have hkv : key.length = 32 ∧ iv.length = 16 := ⟨hkey, hiv⟩
  have hblen : ∀ b ∈ toBlocks (pkcs7Pad ptext), b.length = 16 :=
    toBlocks_blocks_length (pkcs7Pad_mod ptext)
  have hclen : ∀ c ∈ cbcEncBlocks (encB key) iv (toBlocks (pkcs7Pad ptext)), c.length = 16 :=
    cbcEncBlocks_blocks_length (encB key) hlen (toBlocks (pkcs7Pad ptext)) iv hiv hblen
  refine ⟨(cbcEncBlocks (encB key) iv (toBlocks (pkcs7Pad ptext))).flatten, ?_, ?_⟩
  · rw [aes_256_cbc_encrypt, if_pos hkv]
  · have hbne : toBlocks (pkcs7Pad ptext) ≠ [] := by
      rw [toBlocks, dif_neg (pkcs7Pad_ne_nil ptext)]
      exact List.cons_ne_nil _ _
    have hcspos : 0 < (cbcEncBlocks (encB key) iv (toBlocks (pkcs7Pad ptext))).length := by
      rw [cbcEncBlocks_length]
      exact List.length_pos.mpr hbne
    have hflen := flatten_length_of_blocks _ hclen
    have hfne : (cbcEncBlocks (encB key) iv (toBlocks (pkcs7Pad ptext))).flatten ≠ [] := by
      intro hc
      have := congrArg List.length hc
      rw [hflen, List.length_nil] at this
      omega
    have hfmod :
        (cbcEncBlocks (encB key) iv (toBlocks (pkcs7Pad ptext))).flatten.length % 16 = 0 := by
      rw [hflen]
      omega
    rw [aes_256_cbc_decrypt, if_neg (by push_neg; exact ⟨hfne, hfmod⟩), if_pos hkv,
      toBlocks_flatten_inv _ hclen,
      cbcDec_cbcEnc (encB key) (decB key) hinv hlen (toBlocks (pkcs7Pad ptext)) iv hiv hblen,
      toBlocks_flatten, pkcs7Unpad_pkcs7Pad]

/-- Witness for C8 at a concrete input: the identity block cipher,
the all-zero 32-byte key and 16-byte IV, and plaintext [1, 2, 3]. -/
theorem c8_aes_256_cbc_roundtrip_witness :
    ∃ ctext,
      aes_256_cbc_encrypt (fun _ b => b) [1, 2, 3]
        (List.replicate 32 0) (List.replicate 16 0) = .ok ctext ∧
      aes_256_cbc_decrypt (fun _ b => b) ctext
        (List.replicate 32 0) (List.replicate 16 0) = .ok [1, 2, 3] :=
  c8_aes_256_cbc_roundtrip (fun _ b => b) (fun _ b => b) [1, 2, 3]
    (List.replicate 32 0) (List.replicate 16 0)
    (by simp) (by simp) (fun b _ => rfl) (fun b hb => hb)

/-- C9: aes_256_cbc_decrypt returns Err(InvalidCiphertext) whenever the
ciphertext is empty or its length is not a multiple of 16 bytes; the
check precedes the key/IV length check, so the error is
InvalidCiphertext regardless of key and IV. -/
theorem c9_aes_256_cbc_decrypt_length_check (decB : Bytes → Bytes → Bytes)
    (ctext key iv : Bytes) (h : ctext = [] ∨ ctext.length % 16 ≠ 0) :
    aes_256_cbc_decrypt decB ctext key iv = .error .InvalidCiphertext := by
  rw [aes_256_cbc_decrypt, if_pos h]

/-- Witness for C9: a 1-byte ciphertext with an empty key and IV (which
would otherwise yield InvalidCipherCryptographicParameters). -/
theorem c9_aes_256_cbc_decrypt_length_check_witness :
    ([1] = ([] : Bytes) ∨ ([1] : Bytes).length % 16 ≠ 0) ∧
      aes_256_cbc_decrypt (fun _ b => b) [1] [] [] = .error .InvalidCiphertext :=
  ⟨by decide, c9_aes_256_cbc_decrypt_length_check (fun _ b => b) [1] [] [] (by decide)⟩

/-!
Part 2 models the context-keyed storage of
`src/rust/bridge/node/futures/src/context.rs`:
`JsAsyncContext::context_data_object` (lines 236-258),
`register_context_data` (lines 273-285) and `get_context_data`
(lines 287-295).  Host-global JS state maps property names (strings) to
per-bridge storage objects, each mapping integer slot ids to stored
values.  Bridges are indexed by `Nat`; `skey b` is bridge `b`'s
`global_key` string (derived in the source from the pinned shared-state
address, hence distinct across live bridges).
-/

/-- Host-global state together with each bridge's `num_globals` counter.
`jsGlobals s = none` models the property `s` on the JS global object
being absent/undefined. -/
structure StorageWorld (V : Type) where
  num_globals : Nat → Nat
  jsGlobals : String → Option (Nat → Option V)

/-- Model of `context_data_object` with `create_if_needed = true`
(lines 236-258): returns the storage object for bridge `b`, creating it
on the JS global object first if the property is still undefined. -/
def context_data_object_create {V : Type} (skey : Nat → String) (b : Nat)
    (w : StorageWorld V) : (Nat → Option V) × StorageWorld V :=
  match w.jsGlobals (skey b) with
  | some o => (o, w)
  | none =>
    (fun _ => none,
     { w with jsGlobals := fun s =>
        if s = skey b then some (fun _ => none) else w.jsGlobals s })

/-- Model of `register_context_data` (lines 273-285).  `setThrows`
models the host throwing a JS exception out of the property store
(the `?` on `.set(cx, raw_key, value)`); the `num_globals` increment
precedes the store and is not rolled back on error. -/
def register_context_data {V : Type} (skey : Nat → String) (setThrows : Bool)
    (b : Nat) (v : V) (w : StorageWorld V) : StorageWorld V × Except Unit Nat :=
  let raw_key := w.num_globals b
  let w1 : StorageWorld V :=
    { w with num_globals := fun i => if i = b then w.num_globals b + 1 else w.num_globals i }
  let ow2 := context_data_object_create skey b w1
  if setThrows then (ow2.2, .error ())
  else
    ({ ow2.2 with jsGlobals := fun s =>
        if s = skey b then some (fun i => if i = raw_key then some v else ow2.1 i)
        else ow2.2.jsGlobals s },
      .ok raw_key)

/-- Model of `get_context_data` (lines 287-295), with
`context_data_object` called with `create_if_needed = false`: an absent
storage object or an absent property is a failure (`none`). -/
def get_context_data {V : Type} (skey : Nat → String) (b : Nat) (raw_key : Nat)
    (w : StorageWorld V) : Option V :=
  match w.jsGlobals (skey b) with
  | none => none
  | some o => o raw_key

/-- Run a sequence of successful `register_context_data` calls,
`op.1` being the target bridge and `op.2` the stored value. -/
def execRegisters {V : Type} (skey : Nat → String) (ops : List (Nat × V))
    (w : StorageWorld V) : StorageWorld V :=
  ops.foldl (fun w op => (register_context_data skey false op.1 op.2 w).1) w

/-- Fresh world: no bridge has registered anything and no storage
object exists in host-global state. -/
def initialStorageWorld (V : Type) : StorageWorld V :=
  ⟨fun _ => 0, fun _ => none⟩

/-- Number of register operations on bridge `b` in a trace. -/
def countB {V : Type} (b : Nat) (ops : List (Nat × V)) : Nat :=
  ops.countP (fun p => p.1 == b)

theorem countB_append_singleton {V : Type} (b : Nat) (ops : List (Nat × V)) (p : Nat × V) :
    countB b (ops ++ [p]) = countB b ops + if p.1 = b then 1 else 0 := by
  rw [countB, List.countP_append, List.countP_singleton]
  simp [countB]

theorem countB_take_succ {V : Type} (b : Nat) (ops : List (Nat × V)) (i : Nat)
    (hi : i < ops.length) :
    countB b (ops.take (i + 1)) = countB b (ops.take i) + if (ops[i]).1 = b then 1 else 0 := by
  rw [List.take_succ, List.getElem?_eq_getElem hi]
  exact countB_append_singleton b (ops.take i) (ops[i])

theorem countB_take_mono {V : Type} (b : Nat) :
    ∀ (ops : List (Nat × V)) {i j : Nat}, i ≤ j →
      countB b (ops.take i) ≤ countB b (ops.take j)
  | [], _, _, _ => by simp
  | p :: ops, 0, j, _ => by simp [countB]
  | p :: ops, i + 1, j + 1, h => by
    simp only [List.take_succ_cons, countB, List.countP_cons]
    have := countB_take_mono b ops (Nat.le_of_succ_le_succ h)
    simp only [countB] at this
    omega
  | p :: ops, i + 1, 0, h => by omega

theorem countB_take_lt {V : Type} (b : Nat) (ops : List (Nat × V)) (i : Nat)
    (hi : i < ops.length) (hb : (ops[i]).1 = b) :
    countB b (ops.take i) < countB b ops := by
  have h1 := countB_take_succ b ops i hi
  rw [if_pos hb] at h1
  have h2 : countB b (ops.take (i + 1)) ≤ countB b (ops.take ops.length) :=
    countB_take_mono b ops hi
  rw [List.take_length] at h2
  omega

theorem register_num_globals {V : Type} (skey : Nat → String) (setThrows : Bool)
    (b : Nat) (v : V) (w : StorageWorld V) (b' : Nat) :
    ((register_context_data skey setThrows b v w).1).num_globals b'
      = if b' = b then w.num_globals b + 1 else w.num_globals b' := by
  rw [register_context_data, context_data_object_create]
  cases hg : w.jsGlobals (skey b) <;> cases setThrows <;> simp

theorem get_register_same {V : Type} (skey : Nat → String) (b : Nat) (v : V) (k : Nat)
    (w : StorageWorld V) :
    get_context_data skey b k ((register_context_data skey false b v w).1)
      = if k = w.num_globals b then some v else get_context_data skey b k w := by
  rw [register_context_data, context_data_object_create, get_context_data]
  cases hg : w.jsGlobals (skey b) <;>
    simp [get_context_data, hg]

theorem get_register_other {V : Type} (skey : Nat → String)
    (hinj : Function.Injective skey) (b b' : Nat) (hne : b' ≠ b) (v : V) (k : Nat)
    (w : StorageWorld V) :
    get_context_data skey b' k ((register_context_data skey false b v w).1)
      = get_context_data skey b' k w := by
  have hkne : skey b' ≠ skey b := fun h => hne (hinj h)
  rw [register_context_data, context_data_object_create, get_context_data]
  cases hg : w.jsGlobals (skey b) <;>
    simp [get_context_data, hkne]

theorem execRegisters_append_singleton {V : Type} (skey : Nat → String)
    (ops : List (Nat × V)) (op : Nat × V) (w : StorageWorld V) :
    execRegisters skey (ops ++ [op]) w
      = (register_context_data skey false op.1 op.2 (execRegisters skey ops w)).1 := by
  rw [execRegisters, List.foldl_append]
  rfl

theorem execRegisters_spec {V : Type} (skey : Nat → String)
    (hinj : Function.Injective skey) (ops : List (Nat × V)) :
    (∀ b, (execRegisters skey ops (initialStorageWorld V)).num_globals b = countB b ops)
    ∧ (∀ i, (hi : i < ops.length) →
        get_context_data skey ((ops[i]).1) (countB ((ops[i]).1) (ops.take i))
          (execRegisters skey ops (initialStorageWorld V)) = some ((ops[i]).2)) := by
  induction ops using List.reverseRecOn with
  | nil =>
    refine ⟨fun b => rfl, fun i hi => ?_⟩
    simp at hi
  | append_singleton ops op ih =>
    rw [execRegisters_append_singleton]
    constructor
    · intro b
      rw [register_num_globals, countB_append_singleton, ih.1 b]
      by_cases hb : b = op.1
      · subst hb; simp [ih.1 op.1]
      · have : ¬ op.1 = b := fun h => hb h.symm
        simp [hb, this]
    · intro i hi
      rw [List.length_append, List.length_singleton] at hi
      by_cases hlt : i < ops.length
      · have hel : (ops ++ [op])[i] = ops[i] := List.getElem_append_left hlt
        rw [hel, List.take_append_of_le_length (Nat.le_of_lt hlt)]
        by_cases hb : (ops[i]).1 = op.1
        · rw [hb, get_register_same, ih.1 op.1, if_neg]
          · rw [← hb]
            exact ih.2 i hlt
          · rw [← hb]
            exact Nat.ne_of_lt (countB_take_lt _ ops i hlt rfl)
        · rw [get_register_other skey hinj op.1 ((ops[i]).1) hb]
          exact ih.2 i hlt
      · have hieq : i = ops.length := by omega
        subst hieq
        have hel : (ops ++ [op])[ops.length] = op := by
          rw [List.getElem_append_right (Nat.le_refl _)]
          simp
        rw [hel, List.take_append_of_le_length (Nat.le_refl _), List.take_length,
          get_register_same, ih.1 op.1, if_pos rfl]

/-- C3: over any sequence of successful register calls interleaved
across bridges (with distinct storage keys, as the address-derived
`global_key` guarantees), each register stores its value at the slot id
allocated from that bridge's `num_globals` counter and `get` returns
exactly the matching registered value; and ids handed out by successive
registers on one bridge are strictly increasing, hence distinct. -/
theorem c3_register_get (V : Type) (skey : Nat → String)
    (hinj : Function.Injective skey) (ops : List (Nat × V)) :
    (∀ i, (hi : i < ops.length) →
      get_context_data skey ((ops[i]).1) (countB ((ops[i]).1) (ops.take i))
        (execRegisters skey ops (initialStorageWorld V)) = some ((ops[i]).2))
    ∧ (∀ i j, (hi : i < ops.length) → (hj : j < ops.length) → i < j →
      ((ops[i]).1 = (ops[j]).1) →
      countB ((ops[i]).1) (ops.take i) < countB ((ops[j]).1) (ops.take j)) := by
  refine ⟨(execRegisters_spec skey hinj ops).2, ?_⟩
  intro i j hi hj hij hbb
  have h1 := countB_take_succ ((ops[i]).1) ops i hi
  rw [if_pos rfl] at h1
  have h2 : countB ((ops[i]).1) (ops.take (i + 1)) ≤ countB ((ops[i]).1) (ops.take j) :=
    countB_take_mono _ ops hij
  rw [hbb]
  rw [hbb] at h1 h2
  omega

/-- Witness for C3: bridges 0 and 1 interleaved; the second register on
bridge 0 (trace index 2, slot id 1) yields back its value 30. -/
theorem c3_register_get_witness :
    get_context_data (fun n => String.mk (List.replicate n 'a')) 0 1
      (execRegisters (fun n => String.mk (List.replicate n 'a'))
        [(0, 10), (1, 20), (0, 30)] (initialStorageWorld Nat)) = some 30 := by
  have h := (c3_register_get Nat (fun n => String.mk (List.replicate n 'a'))
    (fun a b hab => by
      have := congrArg (fun s => s.data.length) hab
      simpa using this)
    [(0, 10), (1, 20), (0, 30)]).1 2 (by decide)
  simpa [countB] using h

/-- C10: every call to register_context_data advances the bridge's
slot-id counter `num_globals` by exactly one, also when the host
property store throws a JS exception; the increment precedes the store
and is not rolled back on error, so allocation stays monotonic across
successful and failed calls alike. -/
theorem c10_register_increment (V : Type) (skey : Nat → String) (setThrows : Bool)
    (b : Nat) (v : V) (w : StorageWorld V) :
    ((register_context_data skey setThrows b v w).1).num_globals b
        = w.num_globals b + 1
    ∧ (setThrows = true →
        (register_context_data skey setThrows b v w).2 = .error ()) := by
  constructor
  · rw [register_num_globals, if_pos rfl]
  · intro hs
    subst hs
    rw [register_context_data]
    simp

/-- Witness for C10: a failing host store on a fresh world still leaves
the counter at 1 and reports the JS exception. -/
theorem c10_register_increment_witness :
    ((register_context_data (fun _ => "k") true 0 (5 : Nat)
        (initialStorageWorld Nat)).1).num_globals 0 = 0 + 1
    ∧ (true = true →
        (register_context_data (fun _ => "k") true 0 (5 : Nat)
          (initialStorageWorld Nat)).2 = .error ()) :=
  c10_register_increment Nat (fun _ => "k") true 0 5 (initialStorageWorld Nat)

/-!
Part 3 models `JsAsyncContext::run_with_context` (context.rs lines
103-171) together with the scope-guarded cleanup installed on entry
(lines 127-139) and `impl Drop for JsAsyncContextImpl` (lines 58-70).
`ImplState` is the shared `JsAsyncContextImpl`; `World` adds the strong
count of the `Rc` holding it and the JS global object.  The action and
the executor drive (`pool.run_until_stalled()`) are arbitrary state
transformers that may panic, a panic carrying the world at the point of
the panic.  `RunOutcome.abortProc` is `std::process::abort()` reached
through the `catch_unwind` at the boundary (lines 159-170) after the
diagnostic is printed; no outcome propagates a panic to the host.
-/

/-- Panic payloads relevant to run_with_context. -/
inductive PanicMsg where
  | stallAssert        -- the assert "only supports blocking on JavaScript futures"
  | dropWithoutContext -- the expect inside Drop for JsAsyncContextImpl
  | other (n : Nat)    -- an arbitrary panic escaping user code or a task
deriving DecidableEq

/-- Shared state `JsAsyncContextImpl` (lines 44-56).  The field
`current_context` models `very_unsafe_current_context`, with handle
providers numbered; `pool_present` models `pool : Option LocalPool`
(the pool value itself is opaque to these claims). -/
structure ImplState where
  current_context : Option Nat
  num_pending_js_futures : Int
  complete : Bool
  pool_present : Bool
  global_key : String

/-- Shared state plus the Rc strong count and the JS global object
(a property map; `none` is absent/undefined). -/
structure World where
  impl : ImplState
  refCount : Nat
  jsGlobal : String → Option Unit

/-- Model of `impl Drop for JsAsyncContextImpl` (lines 58-70): panics
unless a current context is installed, and clears this Bridge's storage
slot on the JS global object via that still-available handle. -/
def dropImpl (w : World) : Except (PanicMsg × World) World :=
  match w.impl.current_context with
  | none => .error (.dropWithoutContext, w)
  | some _ =>
      .ok { impl := w.impl
            refCount := 0
            jsGlobal := fun k => if k = w.impl.global_key then none else w.jsGlobal k }

/-- Model of the scopeguard body (lines 127-139): when the guard holds
the last reference, destroy the impl while the JS context is still
available; otherwise drop this reference and hand the previously
current context back. -/
def scopeGuardCleanup (prev : Option Nat) (w : World) : Except (PanicMsg × World) World :=
  if w.refCount = 1 then dropImpl w
  else .ok { impl := { w.impl with current_context := prev }
             refCount := w.refCount - 1
             jsGlobal := w.jsGlobal }

/-- Installing the transient context provider (the `replace` on line
121-125 seen from the state side). -/
def installCtx (ctx : Nat) (w : World) : World :=
  { w with impl := { w.impl with current_context := some ctx } }

/-- Taking the pool out of the shared state (`pool.take()`, line 143). -/
def takePool (w : World) : World :=
  { w with impl := { w.impl with pool_present := false } }

/-- Putting the pool back (line 151). -/
def putPool (w : World) : World :=
  { w with impl := { w.impl with pool_present := true } }

/-- Host-visible outcome of run_with_context: an ordinary return, or a
process abort (diagnostic printed, then `std::process::abort`).  No
constructor unwinds a panic into the host. -/
inductive RunOutcome where
  | ok (w : World)
  | abortProc (w : World) (diag : PanicMsg)

/-- World in which the host (or the post-mortem observer, for an abort)
sees the Bridge after run_with_context finishes. -/
def RunOutcome.world : RunOutcome → World
  | .ok w => w
  | .abortProc w _ => w

/-- Unwinding with panic `p`: the scope guard runs, then catch_unwind
yields Err and the process aborts (a second panic inside the guard
aborts as well). -/
def finishAbort (prev : Option Nat) (p : PanicMsg) (wp : World) : RunOutcome :=
  match scopeGuardCleanup prev wp with
  | .ok wg => .abortProc wg p
  | .error (_, wg) => .abortProc wg p

/-- Ordinary exit: the scope guard runs as the as_ref_cell closure
returns; a panic inside the guard is caught at the boundary and aborts. -/
def finishOk (prev : Option Nat) (w : World) : RunOutcome :=
  match scopeGuardCleanup prev w with
  | .ok wg => .ok wg
  | .error (p, wg) => .abortProc wg p

/-- Model of `run_with_context` (lines 103-171): install the context
saving the previous one, run the action, take the pool out, drive it to
a stall, check the stall assertion, put the pool back, and let the
scope guard restore or tear down; any panic is caught at the boundary
and aborts the process. -/
def run_with_context (ctx : Nat)
    (action drive : World → Except (PanicMsg × World) World) (w : World) : RunOutcome :=
  let prev := w.impl.current_context
  match action (installCtx ctx w) with
  | .error (p, wp) => finishAbort prev p wp
  | .ok w2 =>
    if w2.impl.pool_present then
      match drive (takePool w2) with
      | .error (p, wp) => finishAbort prev p wp
      | .ok w3 =>
        if w3.impl.complete = true ∨ 0 < w3.impl.num_pending_js_futures then
          finishOk prev (putPool w3)
        else
          finishAbort prev .stallAssert w3
    else
      finishOk prev w2

theorem guard_world_spec (prev : Option Nat) (u : World) (c : Nat)
    (hc : u.impl.current_context = some c) :
    ∃ wg, scopeGuardCleanup prev u = .ok wg
      ∧ (u.refCount = 1 → wg.jsGlobal u.impl.global_key = none ∧ wg.refCount = 0)
      ∧ (u.refCount ≠ 1 → wg.impl.current_context = prev ∧ wg.refCount = u.refCount - 1)
      ∧ wg.impl.pool_present = u.impl.pool_present
      ∧ wg.impl.complete = u.impl.complete
      ∧ wg.impl.num_pending_js_futures = u.impl.num_pending_js_futures
      ∧ wg.impl.global_key = u.impl.global_key := by
  by_cases h1 : u.refCount = 1
  · refine ⟨{ impl := u.impl
              refCount := 0
              jsGlobal := fun k => if k = u.impl.global_key then none else u.jsGlobal k },
      ?_, ?_, ?_, rfl, rfl, rfl, rfl⟩
    · rw [scopeGuardCleanup, if_pos h1, dropImpl, hc]
    · intro _
      exact ⟨by simp, rfl⟩
    · intro hne
      exact absurd h1 hne
  · refine ⟨{ impl := { u.impl with current_context := prev }
              refCount := u.refCount - 1
              jsGlobal := u.jsGlobal },
      ?_, ?_, ?_, rfl, rfl, rfl, rfl⟩
    · rw [scopeGuardCleanup, if_neg h1]
    · intro h
      exact absurd h h1
    · intro _
      exact ⟨rfl, rfl⟩

theorem run_path_action_panic (ctx : Nat)
    (action drive : World → Except (PanicMsg × World) World) (w wp : World) (p : PanicMsg)
    (ha : action (installCtx ctx w) = .error (p, wp)) :
    run_with_context ctx action drive w = finishAbort w.impl.current_context p wp := by
  simp only [run_with_context, ha]

theorem run_path_no_pool (ctx : Nat)
    (action drive : World → Except (PanicMsg × World) World) (w w2 : World)
    (ha : action (installCtx ctx w) = .ok w2) (hp : w2.impl.pool_present = false) :
    run_with_context ctx action drive w = finishOk w.impl.current_context w2 := by
  simp only [run_with_context, ha, hp, Bool.false_eq_true, if_false]

theorem run_path_drive_panic (ctx : Nat)
    (action drive : World → Except (PanicMsg × World) World) (w w2 wp : World) (p : PanicMsg)
    (ha : action (installCtx ctx w) = .ok w2) (hp : w2.impl.pool_present = true)
    (hd : drive (takePool w2) = .error (p, wp)) :
    run_with_context ctx action drive w = finishAbort w.impl.current_context p wp := by
  simp only [run_with_context, ha, hp, if_true, hd]

theorem run_path_assert_pass (ctx : Nat)
    (action drive : World → Except (PanicMsg × World) World) (w w2 w3 : World)
    (ha : action (installCtx ctx w) = .ok w2) (hp : w2.impl.pool_present = true)
    (hd : drive (takePool w2) = .ok w3)
    (hpass : w3.impl.complete = true ∨ 0 < w3.impl.num_pending_js_futures) :
    run_with_context ctx action drive w = finishOk w.impl.current_context (putPool w3) := by
  simp only [run_with_context, ha, hp, if_true, hd, if_pos hpass]

theorem run_path_assert_fail (ctx : Nat)
    (action drive : World → Except (PanicMsg × World) World) (w w2 w3 : World)
    (ha : action (installCtx ctx w) = .ok w2) (hp : w2.impl.pool_present = true)
    (hd : drive (takePool w2) = .ok w3)
    (hfail : ¬ (w3.impl.complete = true ∨ 0 < w3.impl.num_pending_js_futures)) :
    run_with_context ctx action drive w = finishAbort w.impl.current_context .stallAssert w3 := by
  simp only [run_with_context, ha, hp, if_true, hd, if_neg hfail]

theorem finishOk_of_guard (prev : Option Nat) (u wg : World)
    (hg : scopeGuardCleanup prev u = .ok wg) :
    finishOk prev u = .ok wg := by
  rw [finishOk, hg]

theorem finishAbort_of_guard (prev : Option Nat) (p : PanicMsg) (u wg : World)
    (hg : scopeGuardCleanup prev u = .ok wg) :
    finishAbort prev p u = .abortProc wg p := by
  rw [finishAbort, hg]

theorem finishAbort_is_abort (prev : Option Nat) (p : PanicMsg) (u : World) :
    ∃ wg, finishAbort prev p u = .abortProc wg p := by
  rw [finishAbort]
  cases hg : scopeGuardCleanup prev u with
  | ok wg => exact ⟨wg, rfl⟩
  | error e =>
    obtain ⟨q, wg⟩ := e
    exact ⟨wg, rfl⟩

theorem guardPost_finishOk (prev : Option Nat) (u : World) (c : Nat)
    (hc : u.impl.current_context = some c) :
    (u.refCount = 1 → (finishOk prev u).world.jsGlobal u.impl.global_key = none
      ∧ (finishOk prev u).world.refCount = 0)
    ∧ (u.refCount ≠ 1 → (finishOk prev u).world.impl.current_context = prev
      ∧ (finishOk prev u).world.refCount = u.refCount - 1) := by
  obtain ⟨wg, hg, h1, h2, _, _, _, _⟩ := guard_world_spec prev u c hc
  rw [finishOk_of_guard prev u wg hg]
  exact ⟨h1, h2⟩

theorem guardPost_finishAbort (prev : Option Nat) (p : PanicMsg) (u : World) (c : Nat)
    (hc : u.impl.current_context = some c) :
    (u.refCount = 1 → (finishAbort prev p u).world.jsGlobal u.impl.global_key = none
      ∧ (finishAbort prev p u).world.refCount = 0)
    ∧ (u.refCount ≠ 1 → (finishAbort prev p u).world.impl.current_context = prev
      ∧ (finishAbort prev p u).world.refCount = u.refCount - 1) := by
  obtain ⟨wg, hg, h1, h2, _, _, _, _⟩ := guard_world_spec prev u c hc
  rw [finishAbort_of_guard prev p u wg hg]
  exact ⟨h1, h2⟩

/-- C1: once the action has returned with the pool present, the pool is
taken out, driven to a stall, and then the state must satisfy
`complete = true or pending_count > 0`: if both are false the run ends
in a process abort carrying the stall assertion (a fatal condition, not
a recoverable error) with the pool still checked out; only when the
assertion passes is the pool put back into the Bridge and the run
returns normally. -/
theorem c1_stall_assertion (ctx : Nat)
    (action drive : World → Except (PanicMsg × World) World) (w w2 w3 : World) (c : Nat)
    (ha : action (installCtx ctx w) = .ok w2)
    (hp : w2.impl.pool_present = true)
    (hd : drive (takePool w2) = .ok w3)
    (hc : w3.impl.current_context = some c)
    (hpool : w3.impl.pool_present = false) :
    (¬ (w3.impl.complete = true ∨ 0 < w3.impl.num_pending_js_futures) →
      ∃ wg, run_with_context ctx action drive w = .abortProc wg .stallAssert
        ∧ wg.impl.pool_present = false)
    ∧ ((w3.impl.complete = true ∨ 0 < w3.impl.num_pending_js_futures) →
      ∃ wg, run_with_context ctx action drive w = .ok wg
        ∧ wg.impl.pool_present = true
        ∧ wg.impl.complete = w3.impl.complete
        ∧ wg.impl.num_pending_js_futures = w3.impl.num_pending_js_futures) := by
  constructor
  · intro hfail
    obtain ⟨wg, hg, _, _, hpoolg, _, _, _⟩ :=
      guard_world_spec w.impl.current_context w3 c hc
    refine ⟨wg, ?_, ?_⟩
    · rw [run_path_assert_fail ctx action drive w w2 w3 ha hp hd hfail,
        finishAbort_of_guard _ _ _ _ hg]
    · rw [hpoolg, hpool]
  · intro hpass
    have hcp : (putPool w3).impl.current_context = some c := hc
    obtain ⟨wg, hg, _, _, hpoolg, hcompg, hpendg, _⟩ :=
      guard_world_spec w.impl.current_context (putPool w3) c hcp
    refine ⟨wg, ?_, ?_, ?_, ?_⟩
    · rw [run_path_assert_pass ctx action drive w w2 w3 ha hp hd hpass,
        finishOk_of_guard _ _ _ hg]
    · rw [hpoolg]; rfl
    · rw [hcompg]; rfl
    · rw [hpendg]; rfl

/-- Witness for C1 (the passing branch): an action that does nothing
and a drive that completes the top-level task; the run returns normally
with the pool back, complete set and nothing pending. -/
theorem c1_stall_assertion_witness :
    ∃ wg, run_with_context 0 (fun u => .ok u)
        (fun u => .ok { u with impl := { u.impl with complete := true } })
        { impl := { current_context := none, num_pending_js_futures := 0, complete := false, pool_present := true, global_key := "g" }, refCount := 2, jsGlobal := fun _ => none }
        = .ok wg
      ∧ wg.impl.pool_present = true
      ∧ wg.impl.complete = true
      ∧ wg.impl.num_pending_js_futures = 0 :=
  (c1_stall_assertion 0 (fun u => .ok u)
    (fun u => .ok { u with impl := { u.impl with complete := true } })
    { impl := { current_context := none, num_pending_js_futures := 0, complete := false, pool_present := true, global_key := "g" }, refCount := 2, jsGlobal := fun _ => none }
    _ _ 0 rfl rfl rfl rfl rfl).2 (Or.inl rfl)

/-- C7: a panic escaping the action, or escaping the executor drive, is
caught at the run_with_context boundary and turns into a process abort
carrying that panic as its diagnostic; no RunOutcome propagates the
unwinding to the host. -/
theorem c7_panic_never_unwinds (ctx : Nat)
    (action drive : World → Except (PanicMsg × World) World) (w : World) :
    (∀ p wp, action (installCtx ctx w) = .error (p, wp) →
      ∃ wg, run_with_context ctx action drive w = .abortProc wg p)
    ∧ (∀ w2 p wp, action (installCtx ctx w) = .ok w2 → w2.impl.pool_present = true →
        drive (takePool w2) = .error (p, wp) →
      ∃ wg, run_with_context ctx action drive w = .abortProc wg p) := by
  constructor
  · intro p wp hA
    rw [run_path_action_panic ctx action drive w wp p hA]
    exact finishAbort_is_abort _ p wp
  · intro w2 p wp hA hp hD
    rw [run_path_drive_panic ctx action drive w w2 wp p hA hp hD]
    exact finishAbort_is_abort _ p wp

/-- Witness for C7: an action that panics immediately; the run aborts
the process with that panic as diagnostic. -/
theorem c7_panic_never_unwinds_witness :
    ∃ wg, run_with_context 0 (fun u => .error (.other 7, u)) (fun u => .ok u)
        { impl := { current_context := none, num_pending_js_futures := 0, complete := false, pool_present := true, global_key := "g" }, refCount := 2, jsGlobal := fun _ => none }
        = .abortProc wg (.other 7) :=
  (c7_panic_never_unwinds 0 (fun u => .error (.other 7, u)) (fun u => .ok u)
    { impl := { current_context := none, num_pending_js_futures := 0, complete := false, pool_present := true, global_key := "g" }, refCount := 2, jsGlobal := fun _ => none }).1
    (.other 7) _ rfl

/-- C2: run_with_context installs the handle as current before the
action runs (the run depends on the action only through its value at
the world with the handle installed, the previous current handle being
saved), and on every exit path — ordinary return, stall abort, or a
panic in the action or in the drive — the scope guard either restores
the saved previous current handle (when other references to the Bridge
survive this call) or, when this call held the last reference, tears
the Bridge down, clearing its host-global storage slot while the handle
is still installed, instead of restoring anything.  The frame
hypotheses record that the caller's action and the executor drive do
not themselves clone or drop Bridge references, change the storage key,
or reinstall a context. -/
theorem c2_install_restore_teardown (ctx : Nat)
    (action drive : World → Except (PanicMsg × World) World) (w : World)
    (hfa : ∀ u u', (action u = .ok u' ∨ ∃ p, action u = .error (p, u')) →
      u'.refCount = u.refCount ∧ u'.impl.global_key = u.impl.global_key
        ∧ u'.impl.current_context = u.impl.current_context)
    (hfd : ∀ u u', (drive u = .ok u' ∨ ∃ p, drive u = .error (p, u')) →
      u'.refCount = u.refCount ∧ u'.impl.global_key = u.impl.global_key
        ∧ u'.impl.current_context = u.impl.current_context) :
    (∀ action', action' (installCtx ctx w) = action (installCtx ctx w) →
      run_with_context ctx action' drive w = run_with_context ctx action drive w)
    ∧ (w.refCount = 1 →
      (run_with_context ctx action drive w).world.jsGlobal w.impl.global_key = none
        ∧ (run_with_context ctx action drive w).world.refCount = 0)
    ∧ (w.refCount ≠ 1 →
      (run_with_context ctx action drive w).world.impl.current_context
          = w.impl.current_context
        ∧ (run_with_context ctx action drive w).world.refCount = w.refCount - 1) := by
  have hpost : (w.refCount = 1 →
      (run_with_context ctx action drive w).world.jsGlobal w.impl.global_key = none
        ∧ (run_with_context ctx action drive w).world.refCount = 0)
    ∧ (w.refCount ≠ 1 →
      (run_with_context ctx action drive w).world.impl.current_context
          = w.impl.current_context
        ∧ (run_with_context ctx action drive w).world.refCount = w.refCount - 1) := by
    cases hA : action (installCtx ctx w) with
    | error e =>
      obtain ⟨p, wp⟩ := e
      obtain ⟨hr, hk, hcc⟩ := hfa (installCtx ctx w) wp (Or.inr ⟨p, hA⟩)
      simp only [installCtx] at hr hk hcc
      have hcur : wp.impl.current_context = some ctx := hcc
      rw [run_path_action_panic ctx action drive w wp p hA]
      have hgp := guardPost_finishAbort w.impl.current_context p wp ctx hcur
      rw [hr, hk] at hgp
      exact hgp
    | ok w2 =>
      obtain ⟨hr2, hk2, hcc2⟩ := hfa (installCtx ctx w) w2 (Or.inl hA)
      simp only [installCtx] at hr2 hk2 hcc2
      have hcur2 : w2.impl.current_context = some ctx := hcc2
      by_cases hp : w2.impl.pool_present = true
      · cases hD : drive (takePool w2) with
        | error e =>
          obtain ⟨p, wp⟩ := e
          obtain ⟨hr3, hk3, hcc3⟩ := hfd (takePool w2) wp (Or.inr ⟨p, hD⟩)
          simp only [takePool] at hr3 hk3 hcc3
          have hcur3 : wp.impl.current_context = some ctx := by rw [hcc3]; exact hcur2
          rw [run_path_drive_panic ctx action drive w w2 wp p hA hp hD]
          have hgp := guardPost_finishAbort w.impl.current_context p wp ctx hcur3
          rw [hr3, hk3, hr2, hk2] at hgp
          exact hgp
        | ok w3 =>
          obtain ⟨hr3, hk3, hcc3⟩ := hfd (takePool w2) w3 (Or.inl hD)
          simp only [takePool] at hr3 hk3 hcc3
          have hcur3 : w3.impl.current_context = some ctx := by rw [hcc3]; exact hcur2
          by_cases hpass : w3.impl.complete = true ∨ 0 < w3.impl.num_pending_js_futures
          · rw [run_path_assert_pass ctx action drive w w2 w3 hA hp hD hpass]
            have hcurp : (putPool w3).impl.current_context = some ctx := hcur3
            have hgp := guardPost_finishOk w.impl.current_context (putPool w3) ctx hcurp
            have hpr : (putPool w3).refCount = w.refCount := by
              show w3.refCount = w.refCount
              rw [hr3, hr2]
            have hpk : (putPool w3).impl.global_key = w.impl.global_key := by
              show w3.impl.global_key = w.impl.global_key
              rw [hk3, hk2]
            rw [hpr, hpk] at hgp
            exact hgp
          · rw [run_path_assert_fail ctx action drive w w2 w3 hA hp hD hpass]
            have hgp := guardPost_finishAbort w.impl.current_context .stallAssert w3 ctx hcur3
            rw [hr3, hk3, hr2, hk2] at hgp
            exact hgp
      · have hp' : w2.impl.pool_present = false := by
          cases hb : w2.impl.pool_present
          · rfl
          · exact absurd hb hp
        rw [run_path_no_pool ctx action drive w w2 hA hp']
        have hgp := guardPost_finishOk w.impl.current_context w2 ctx hcur2
        rw [hr2, hk2] at hgp
        exact hgp
  refine ⟨?_, hpost.1, hpost.2⟩
  intro action' he
  simp only [run_with_context, he]

/-- Witness for C2: a do-nothing action and drive on a Bridge whose
only reference is held by this call; the run tears the Bridge down,
clearing the "g" slot on the host-global object. -/
theorem c2_install_restore_teardown_witness :
    (run_with_context 0 (fun u => .ok u) (fun u => .ok u)
        { impl := { current_context := none, num_pending_js_futures := 0, complete := false, pool_present := false, global_key := "g" }, refCount := 1, jsGlobal := fun k => if k = "g" then some () else none }).world.jsGlobal "g" = none
    ∧ (run_with_context 0 (fun u => .ok u) (fun u => .ok u)
        { impl := { current_context := none, num_pending_js_futures := 0, complete := false, pool_present := false, global_key := "g" }, refCount := 1, jsGlobal := fun k => if k = "g" then some () else none }).world.refCount = 0 :=
  (c2_install_restore_teardown 0 (fun u => .ok u) (fun u => .ok u)
    { impl := { current_context := none, num_pending_js_futures := 0, complete := false, pool_present := false, global_key := "g" }, refCount := 1, jsGlobal := fun k => if k = "g" then some () else none }
    (fun u u' h => by
      rcases h with h | ⟨p, h⟩
      · injection h with h2
        subst h2
        exact ⟨rfl, rfl, rfl⟩
      · exact Except.noConfusion h)
    (fun u u' h => by
      rcases h with h | ⟨p, h⟩
      · injection h with h2
        subst h2
        exact ⟨rfl, rfl, rfl⟩
      · exact Except.noConfusion h)).2.1 rfl

/-!
Part 4 models the Borrow Gate: `CurrentContextImpl::with_context`
(context.rs lines 38-42), whose RefCell around the FunctionContext
dynamically checks exclusive access, and `JsAsyncContext::with_context`
(lines 200-216), which first requires a current context to be
installed.  The callback receives the borrow state of the cell, so a
nested borrow attempt is visible to the model, and may itself end in a
borrow panic.
-/

/-- Borrow flag of the `RefCell<FunctionContext>` owned by the active
CurrentContextImpl. -/
structure CtxRefCell where
  borrowed : Bool
deriving DecidableEq

/-- Panics of the Borrow Gate: `RefCell::borrow_mut` on an already
borrowed cell (line 40), and the expect on line 208 firing when no JS
call is active. -/
inductive CtxPanic where
  | alreadyMutablyBorrowed
  | noJsCallActive
deriving DecidableEq

/-- Model of `CurrentContextImpl::with_context` (lines 38-42):
`self.context.borrow_mut()` panics if the cell is already mutably
borrowed; otherwise the callback runs with the cell borrowed and the
borrow ends when it returns. -/
def CurrentContextImpl.with_context {R : Type}
    (cell : CtxRefCell)
    (cb : CtxRefCell → Except CtxPanic (CtxRefCell × R)) :
    Except CtxPanic (CtxRefCell × R) :=
  if cell.borrowed then .error .alreadyMutablyBorrowed
  else
    match cb { borrowed := true } with
    | .error p => .error p
    | .ok (c2, r) => .ok ({ c2 with borrowed := false }, r)

/-- Model of `JsAsyncContext::with_context` (lines 200-216): the expect
on `very_unsafe_current_context` panics when no JS call is active for
this Bridge; otherwise the callback is dispatched through the current
CurrentContextImpl, whose RefCell enforces the exclusive borrow. -/
def JsAsyncContext.with_context {R : Type}
    (cur : Option CtxRefCell)
    (cb : CtxRefCell → Except CtxPanic (CtxRefCell × R)) :
    Except CtxPanic (CtxRefCell × R) :=
  match cur with
  | none => .error .noJsCallActive
  | some cell => CurrentContextImpl.with_context cell cb

/-- C5: while a with_context callback holds the handle (the cell is
mutably borrowed), a second overlapping borrow attempt on the same
Bridge fails fast and deterministically with the re-entrancy panic;
in particular a callback that itself calls with_context makes the call
end in that panic rather than ever producing an aliased handle. -/
theorem c5_reentrancy_fails_fast {R : Type} (cell : CtxRefCell)
    (cb cb2 : CtxRefCell → Except CtxPanic (CtxRefCell × R)) :
    (cell.borrowed = true →
      CurrentContextImpl.with_context cell cb = .error .alreadyMutablyBorrowed)
    ∧ CurrentContextImpl.with_context { borrowed := false }
        (fun c => CurrentContextImpl.with_context c cb2)
      = .error .alreadyMutablyBorrowed := by
  constructor
  · intro hb
    rw [CurrentContextImpl.with_context, if_pos hb]
  · rfl

/-- Witness for C5: the borrow flag is set, so the overlapping
with_context attempt reports the borrow panic. -/
theorem c5_reentrancy_fails_fast_witness :
    CurrentContextImpl.with_context { borrowed := true }
        (fun c => .ok (c, (0 : Nat)))
      = .error .alreadyMutablyBorrowed :=
  (c5_reentrancy_fails_fast { borrowed := true }
    (fun c => .ok (c, 0)) (fun c => .ok (c, 0))).1 rfl

/-- C6: with_context called while no host call is active for this
Bridge fails with the misuse panic at the call site; when a host call
is active (and the handle not already borrowed), the callback runs
exactly once, receiving the current handle in its borrowed state, and
with_context returns the callback's result. -/
theorem c6_with_context_requires_active {R : Type} (cur : Option CtxRefCell) :
    (cur = none → ∀ cb : CtxRefCell → Except CtxPanic (CtxRefCell × R),
      JsAsyncContext.with_context cur cb = .error .noJsCallActive)
    ∧ (∀ cell : CtxRefCell, cur = some cell → cell.borrowed = false →
      ∀ f : CtxRefCell → R,
        JsAsyncContext.with_context cur (fun c => .ok (c, f c))
          = .ok (cell, f { borrowed := true })) := by
  constructor
  · intro hn cb
    rw [hn, JsAsyncContext.with_context]
  · intro cell hs hb f
    obtain ⟨b⟩ := cell
    have hb' : b = false := hb
    subst hb'
    rw [hs]
    rfl

/-- Witness for C6: both branches at concrete inputs — no active call
errors out; an active, unborrowed handle yields the callback's value
computed on the borrowed handle. -/
theorem c6_with_context_requires_active_witness :
    JsAsyncContext.with_context (R := Nat) none (fun c => .ok (c, 0))
        = .error .noJsCallActive
    ∧ JsAsyncContext.with_context (some { borrowed := false })
        (fun c => .ok (c, if c.borrowed then (1 : Nat) else 0))
      = .ok ({ borrowed := false }, 1) :=
  ⟨(c6_with_context_requires_active none).1 rfl (fun c => .ok (c, 0)),
   (c6_with_context_requires_active (some { borrowed := false })).2
     { borrowed := false } rfl rfl (fun c => if c.borrowed then 1 else 0)⟩

/-!
Part 5 models the pending-future counter: `register_future` and
`resolve_future` (context.rs lines 173-179) acting on
`num_pending_js_futures`.  The discipline that every Bridged Future
calls register_future exactly once at creation and resolve_future
exactly once at settlement lives in future.rs, which is not among the
sources; that lifecycle is modelled from the spec below.
-/

/-- Model of `register_future` (lines 173-175) on the counter. -/
def register_future (n : Int) : Int := n + 1

/-- Model of `resolve_future` (lines 177-179) on the counter. -/
def resolve_future (n : Int) : Int := n - 1

/-- Modelled from the spec: the Bridged Future lifecycle of future.rs
(not among the sources): each future is created once and settled at
most once, and a settlement only ever hits a created, still-pending
future.  `settled` holds one flag per created future. -/
structure FutureLedger where
  num_pending_js_futures : Int
  settled : List Bool

/-- Modelled from the spec: the operations reachable through the
public interface — creating a Bridged Future (which calls
register_future) and settling a pending one (which calls
resolve_future). -/
inductive FutureStep : FutureLedger → FutureLedger → Prop where
  | create (s : FutureLedger) :
      FutureStep s ⟨register_future s.num_pending_js_futures, s.settled ++ [false]⟩
  | settle (s : FutureLedger) (i : Nat) (hi : i < s.settled.length)
      (hp : s.settled[i] = false) :
      FutureStep s ⟨resolve_future s.num_pending_js_futures, s.settled.set i true⟩

/-- States reachable from a fresh Bridge: counter 0, no futures. -/
inductive FutureReachable : FutureLedger → Prop where
  | init : FutureReachable ⟨0, []⟩
  | step {s t : FutureLedger} : FutureReachable s → FutureStep s t → FutureReachable t

theorem count_false_set_true :
    ∀ (l : List Bool) (i : Nat), (hi : i < l.length) → l[i] = false →
      (l.set i true).count false + 1 = l.count false
  | b :: l, 0, _, h => by
    have hb : b = false := h
    subst hb
    simp [List.count_cons]
  | b :: l, i + 1, hi, h => by
    have hi' : i < l.length := by
      simpa using hi
    have h' : l[i] = false := h
    have ihl := count_false_set_true l i hi' h'
    simp only [List.set_cons_succ, List.count_cons]
    omega

theorem futureLedger_invariant (s : FutureLedger) (h : FutureReachable s) :
    s.num_pending_js_futures = (s.settled.count false : Int) := by
  induction h with
  | init => rfl
  | @step s1 t hr hstep ih =>
    cases hstep with
    | create =>
      simp only [register_future, List.count_append, List.count_cons, List.count_nil]
      rw [ih]
      push_cast
      simp
    | settle i hi hp =>
      have hcount := count_false_set_true s1.settled i hi hp
      simp only [resolve_future]
      rw [ih]
      omega

/-- C4: pending_count never goes negative: register_future increments
the counter, resolve_future decrements it, and under the
(spec-modelled) discipline that each Bridged Future registers exactly
once at creation and resolves exactly once at settlement, every state
reachable through the public interface keeps the counter equal to the
number of still-pending futures, hence at least zero. -/
theorem c4_pending_count_nonneg (s : FutureLedger) (h : FutureReachable s) :
    0 ≤ s.num_pending_js_futures
    ∧ register_future s.num_pending_js_futures = s.num_pending_js_futures + 1
    ∧ resolve_future s.num_pending_js_futures = s.num_pending_js_futures - 1 := by
  refine ⟨?_, rfl, rfl⟩
  rw [futureLedger_invariant s h]
  exact Int.natCast_nonneg _

/-- Witness for C4 at the initial state of a fresh Bridge. -/
theorem c4_pending_count_nonneg_witness :
    (0 : Int) ≤ 0 ∧ register_future 0 = 0 + 1 ∧ resolve_future 0 = 0 - 1 :=
  c4_pending_count_nonneg ⟨0, []⟩ FutureReachable.init
